import Mathlib

/-!
Shallow embedding of the bulk-operation module (djangobulk/bulk.py) of the
django-bulk repository, together with proofs about its field selection,
value preparation, partitioning and deduplication logic.

Python objects are modelled as attribute maps with an optional `presave`
hook; Django fields are modelled as records carrying the `pre_save` and
`get_db_prep_save` transforms as functions; the database is modelled as the
set of key tuples the existence-probe SELECT would report as present.
Python `None` returns are modelled with `Option` (`Option.none` = Python
`None`), and `ValueError` with `Except.error`.
-/

namespace DjangoBulk

/-- A database-level value: Python `None`, integers, strings, and datetime
values carrying an optional timezone (`tz = Option.none` models a naive
datetime). -/
inductive Value where
  | null
  | int (n : Int)
  | str (s : String)
  | dt (ts : Int) (tz : Option Int)
  deriving DecidableEq

/-- The attribute map of a Python object instance. -/
def Attrs : Type := String → Value

/-- A model instance handed to the bulk operations: its attributes and the
optional zero-argument `presave` hook, which may mutate the attributes
(`hasattr(obj, 'presave') and callable(obj.presave)`). -/
structure Obj where
  attrs : Attrs
  presave : Option (Attrs → Attrs)

/-- A Django model field, as used by bulk.py: `name`, `column`,
`get_internal_type()` as a string tag, the `AutoField` test, and the two
value transforms `pre_save(obj, add)` and
`get_db_prep_save(value, connection)` (the connection is fixed). -/
structure Field where
  name : String
  column : String
  internalType : String
  isAutoField : Bool
  preSave : Attrs → Bool → Value
  dbPrepSave : Value → Value

/-- A Django model class: `_meta.pk`, the ordered `_meta.fields` list and
`_meta.db_table`. -/
structure Model where
  pk : Field
  fields : List Field
  dbTable : String

/-- Embeds `_model_keys(model, field_names)`: fields for the WHERE clause.
`field_names is None` gives the primary key; otherwise a field is kept
unless the name set is truthy (non-empty) and does not contain its name
— so an empty set keeps every field. -/
def modelKeys (model : Model) : Option (List String) → List Field
  | Option.none => [model.pk]
  | Option.some names =>
      model.fields.filter (fun f => names.isEmpty || decide (f.name ∈ names))

/-- Embeds `_model_fields(model, field_names)`: fields to insert/update.
`set(field_names or [])` turns both `None` and an empty iterable into the
empty set, which disables the name filter; `AutoField`s are always
skipped. -/
def modelFields (model : Model) (fieldNames : Option (List String)) :
    List Field :=
  let names := fieldNames.getD []
  model.fields.filter
    (fun f => !f.isAutoField && (names.isEmpty || decide (f.name ∈ names)))

/-- Embeds `_split_model_fields(model, keys, update_fields, exclude_fields)`:
resolve key fields, raise `ValueError("Empty key fields")` when the
resolved list is empty, and remove key names and `exclude_fields` names
from the value fields. -/
def splitModelFields (model : Model)
    (keys updateFields excludeFields : Option (List String)) :
    Except String (List Field × List Field) :=
  let keyFields := modelKeys model keys
  if keyFields.isEmpty then
    Except.error "Empty key fields"
  else
    let excludedNames := keyFields.map Field.name ++ excludeFields.getD []
    let valueFields := (modelFields model updateFields).filter
      (fun f => !decide (f.name ∈ excludedNames))
    Except.ok (keyFields, valueFields)

/-- Embeds `v.replace(tzinfo=None)` guarded by `try/except TypeError`: a datetime
loses its timezone, every other value (including `None`, for which the
call is skipped) is left unchanged. -/
def stripTZ : Value → Value
  | Value.dt ts _ => Value.dt ts Option.none
  | v => v

/-- The type tags that bulk.py passes through without
`get_db_prep_save`. -/
def temporalOrUUID (typeTag : String) : Bool :=
  typeTag == "DateTimeField" || typeTag == "DateField" ||
    typeTag == "UUIDField"

/-- One entry of the parameter tuple built by `_prep_values` for a field,
given the (post-hook) attributes. -/
def prepField (f : Field) (a : Attrs) (add : Bool) : Value :=
  if temporalOrUUID f.internalType then
    let v := f.preSave a add
    if f.internalType == "DateTimeField" then stripTZ v else v
  else
    f.dbPrepSave (f.preSave a add)

/-- Run the `presave` hook, if any: the in-place mutation performed at the
top of `_prep_values`. -/
def applyPresave (o : Obj) : Obj :=
  match o.presave with
  | Option.some h => { o with attrs := h o.attrs }
  | Option.none => o

/-- Embeds `_prep_values(fields, obj, con, add)`: invoke the hook, then build the
parameter tuple.  Returns the mutated object together with the tuple,
making the in-place mutation explicit. -/
def prepValues (fields : List Field) (o : Obj) (add : Bool) :
    Obj × List Value :=
  let o' := applyPresave o
  (o', fields.map (fun f => prepField f o'.attrs add))

/-- A Row Record: the `dict(zip(field_names, parameters))` transcript. -/
def Row : Type := List (String × Value)

instance : DecidableEq Row := by
  unfold Row
  infer_instance

/-- Embeds `_build_rows(fields, parameters)`. -/
def buildRows (fields : List Field) (parameters : List (List Value)) :
    List Row :=
  parameters.map (fun p => (fields.map Field.name).zip p)

/-- The body of `_insert_many` past the empty check (also reached, via a
truthy generator argument, from `insert_or_update_many`).  Returns the
result list and the mutated objects. -/
def insertManyBody (model : Model) (objects : List Obj)
    (skipResult : Bool) : List Row × List Obj :=
  let fields := modelFields model Option.none
  let prepped := objects.map (fun o => prepValues fields o true)
  let parameters := prepped.map Prod.snd
  ((if skipResult then [] else buildRows fields parameters),
    prepped.map Prod.fst)

/-- Embeds `_insert_many(model, objects, using, skip_result)`: `Option.none`
models the bare `return` (Python `None`) taken on an empty list. -/
def insertMany (model : Model) (objects : List Obj) (skipResult : Bool) :
    Option (List Row) × List Obj :=
  if objects.isEmpty then (Option.none, objects)
  else
    let r := insertManyBody model objects skipResult
    (Option.some r.1, r.2)

/-- Embeds `insert_many(model, objects, using, skip_result)` (the transaction
decorator adds no logic of its own). -/
def insert_many (model : Model) (objects : List Obj) (skipResult : Bool) :
    Option (List Row) × List Obj :=
  insertMany model objects skipResult

/-- The body of `_update_many` past the empty check: parameters are the
value fields followed by the key fields, one row per object. -/
def updateManyBody (model : Model) (objects : List Obj)
    (keyFields valueFields : List Field) (skipResult : Bool) :
    List Row × List Obj :=
  let paramFields := valueFields ++ keyFields
  let prepped := objects.map (fun o => prepValues paramFields o false)
  ((if skipResult then [] else buildRows paramFields (prepped.map Prod.snd)),
    prepped.map Prod.fst)

/-- Embeds `_update_many(model, objects, key_fields, value_fields, using,
skip_result)`: `Option.none` models the bare `return` on an empty list. -/
def updateManyLow (model : Model) (objects : List Obj)
    (keyFields valueFields : List Field) (skipResult : Bool) :
    Option (List Row) × List Obj :=
  if objects.isEmpty then (Option.none, objects)
  else
    let r := updateManyBody model objects keyFields valueFields skipResult
    (Option.some r.1, r.2)

/-- Embeds `update_many(model, objects, keys, using, update_fields,
exclude_fields)`: splits the fields (raising `ValueError` on an empty key
list) before any empty-input check, then delegates with the default
`skip_result=True` and discards the result.  The returned object list
models the in-place mutations visible to the caller. -/
def update_many (model : Model) (objects : List Obj)
    (keys updateFields excludeFields : Option (List String)) :
    Except String (List Obj) :=
  match splitModelFields model keys updateFields excludeFields with
  | Except.error e => Except.error e
  | Except.ok (keyFields, valueFields) =>
      Except.ok (updateManyLow model objects keyFields valueFields true).2

/-- Embeds `_filter_objects(con, objects, key_fields)` unrolled on the already
reversed list: each object is prepped (hook re-run), kept when its key
tuple is unseen and dropped otherwise.  Returns (kept, dropped), both in
traversal order and in their post-prep state. -/
def filterObjectsAux (keyFields : List Field) :
    List Obj → List (List Value) → List Obj × List Obj
  | [], _ => ([], [])
  | o :: rest, seen =>
      let p := prepValues keyFields o false
      if p.2 ∈ seen then
        let r := filterObjectsAux keyFields rest seen
        (r.1, p.1 :: r.2)
      else
        let r := filterObjectsAux keyFields rest (p.2 :: seen)
        (p.1 :: r.1, r.2)

/-- Embeds `_filter_objects(con, objects, key_fields)`: the generator iterates
`reversed(objects)` so that the last occurrence of each key wins. -/
def filterObjects (keyFields : List Field) (objects : List Obj) :
    List Obj × List Obj :=
  filterObjectsAux keyFields objects.reverse []

/-- Everything `insert_or_update_many` computes after field splitting, kept
component-wise so that both the returned rows and the final object states
(in-place mutations) can be inspected.  `db` is the set of key tuples the
existence-probe SELECT reports as already stored. -/
structure IouOutcome where
  insertedRows : List Row
  updatedRows : Option (List Row)
  updateObjsFinal : List Obj
  keptObjsFinal : List Obj
  droppedObjsFinal : List Obj
  probeObjs : List (Obj × List Value)

/-- The core of `insert_or_update_many` after the empty check and field
split: probe, partition on membership of the prepared key tuple in `db`,
update the existing group (unless `skip_update`), dedup and insert the
rest. -/
def iouCore (model : Model) (objects : List Obj)
    (keyFields valueFields : List Field) (skipUpdate : Bool)
    (db : List (List Value)) : IouOutcome :=
  let objectKeys := objects.map (fun o => prepValues keyFields o false)
  let updateObjects :=
    (objectKeys.filter (fun ok => decide (ok.2 ∈ db))).map Prod.fst
  let updRes := updateManyLow model updateObjects keyFields valueFields false
  let insertObjects :=
    (objectKeys.filter (fun ok => !decide (ok.2 ∈ db))).map Prod.fst
  let filtered := filterObjects keyFields insertObjects
  let insRes := insertManyBody model filtered.1 false
  { insertedRows := insRes.1
    updatedRows := if skipUpdate then Option.some [] else updRes.1
    updateObjsFinal := if skipUpdate then [] else updRes.2
    keptObjsFinal := insRes.2
    droppedObjsFinal := filtered.2
    probeObjs := objectKeys }

/-- Embeds `insert_or_update_many(model, objects, keys, using, skip_update,
update_fields, exclude_fields)`: returns `([], [])` on an empty list
before any field resolution; otherwise `(inserted_rows, updated_rows)`
where `updated_rows` is Python `None` (`Option.none`) when
`skip_update=False` and the update group is empty. -/
def insert_or_update_many (model : Model) (objects : List Obj)
    (keys updateFields excludeFields : Option (List String))
    (skipUpdate : Bool) (db : List (List Value)) :
    Except String (List Row × Option (List Row)) :=
  if objects.isEmpty then Except.ok ([], Option.some [])
  else
    match splitModelFields model keys updateFields excludeFields with
    | Except.error e => Except.error e
    | Except.ok (keyFields, valueFields) =>
        let r := iouCore model objects keyFields valueFields skipUpdate db
        Except.ok (r.insertedRows, r.updatedRows)

/-! ### Specification-side definitions

Definitions below follow the spec's words rather than the code; theorems
compare the code's behaviour against them. -/

/-- The prepared key tuple of an object in its current state (no hook run):
what the spec calls the object's key tuple. -/
def keyOf (keyFields : List Field) (o : Obj) : List Value :=
  keyFields.map (fun f => prepField f o.attrs false)

/-- Objects carrying no `presave` hook. -/
def hookFree (objects : List Obj) : Prop :=
  ∀ o ∈ objects, o.presave = Option.none

/-- Spec-side deduplication: keep an object exactly when no later object in
the list has the same key tuple ("keeping the last occurrence in the
original list order"), preserving input order of the kept objects. -/
def keepLast (key : Obj → List Value) : List Obj → List Obj
  | [] => []
  | o :: rest =>
      if rest.any (fun p => decide (key p = key o)) then keepLast key rest
      else o :: keepLast key rest

/-- Whether a value is a timezone-aware datetime. -/
def hasTZ : Value → Bool
  | Value.dt _ (Option.some _) => true
  | _ => false

/-- The Row Record that a given field list produces for an object in its
current state. -/
def rowOf (fields : List Field) (o : Obj) (add : Bool) : Row :=
  (fields.map Field.name).zip (fields.map (fun f => prepField f o.attrs add))

/-- Variant of `_filter_objects` with the hook invocation stripped out: pure
first-occurrence dedup over an already reversed list. -/
def pureFilterAux (key : Obj → List Value) :
    List Obj → List (List Value) → List Obj × List Obj
  | [], _ => ([], [])
  | o :: rest, seen =>
      if key o ∈ seen then
        let r := pureFilterAux key rest seen
        (r.1, o :: r.2)
      else
        let r := pureFilterAux key rest (key o :: seen)
        (o :: r.1, r.2)

/-! ### Concrete fixtures (used by witnesses and counterexamples) -/

/-- An attribute map from an association list, defaulting to `null`. -/
def attrsOf (l : List (String × Value)) : Attrs :=
  fun n => (((l.find? (fun p => p.1 == n)).map Prod.snd).getD Value.null)

/-- A hook-free object. -/
def plainObj (l : List (String × Value)) : Obj :=
  { attrs := attrsOf l, presave := Option.none }

/-- A field whose `pre_save` reads the attribute of the same name and whose
`get_db_prep_save` is the identity. -/
def simpleField (nm typeTag : String) (auto : Bool) : Field :=
  { name := nm, column := nm, internalType := typeTag, isAutoField := auto
    preSave := fun a _ => a nm, dbPrepSave := fun v => v }

def fId : Field := simpleField "id" "AutoField" true

def fA : Field := simpleField "a" "CharField" false

def fB : Field := simpleField "b" "IntegerField" false

def fC : Field := simpleField "c" "IntegerField" false

/-- The embedding of the test model `TestModelA`. -/
def testModel : Model :=
  { pk := fId, fields := [fId, fA, fB, fC], dbTable := "bulktest_testmodela" }

/-- An object of `testModel` with the given `b` and `c` values. -/
def objBC (bv cv : Int) : Obj :=
  plainObj [("a", Value.str "T"), ("b", Value.int bv), ("c", Value.int cv)]

def fN : Field := simpleField "a" "IntegerField" false

/-- The embedding of the test model `TestModelPreSave` (one value field). -/
def preModel : Model :=
  { pk := fId, fields := [fId, fN], dbTable := "bulktest_testmodelpresave" }

/-- An object whose `presave` hook increments its own `a` attribute, so the
persisted value counts the hook invocations. -/
def countingObj : Obj :=
  { attrs := attrsOf [("a", Value.int 0)]
    presave := Option.some (fun a => fun n =>
      if n == "a" then
        match a "a" with
        | Value.int k => Value.int (k + 1)
        | v => v
      else a n) }

/-- A timezone-aware `DateTimeField` fixture reading attribute `"t"`. -/
def fDt : Field := simpleField "t" "DateTimeField" false

/-! ### Helper lemmas -/

theorem applyPresave_of_none {o : Obj} (h : o.presave = Option.none) :
    applyPresave o = o := by
  simp [applyPresave, h]

theorem prepValues_of_none {o : Obj} (h : o.presave = Option.none)
    (fields : List Field) (add : Bool) :
    prepValues fields o add = (o, fields.map (fun f => prepField f o.attrs add)) := by
  simp [prepValues, applyPresave_of_none h]

theorem prepValues_fst (fields : List Field) (o : Obj) (add : Bool) :
    (prepValues fields o add).1 = applyPresave o := rfl

theorem prepValues_eq_keyOf (kf : List Field) (o : Obj) :
    prepValues kf o false = (applyPresave o, keyOf kf (applyPresave o)) := rfl

theorem buildRows_length (fields : List Field) (ps : List (List Value)) :
    (buildRows fields ps).length = ps.length := by
  simp [buildRows]

theorem insertManyBody_snd (model : Model) (l : List Obj) (s : Bool) :
    (insertManyBody model l s).2 = l.map applyPresave := by
  simp [insertManyBody, prepValues]

theorem insertManyBody_rows (model : Model) (l : List Obj) :
    (insertManyBody model l false).1 =
      l.map (fun o => rowOf (modelFields model Option.none) (applyPresave o) true) := by
  simp [insertManyBody, buildRows, prepValues, rowOf]

theorem insertManyBody_rows_length (model : Model) (l : List Obj) :
    (insertManyBody model l false).1.length = l.length := by
  rw [insertManyBody_rows]; simp

theorem updateManyBody_snd (model : Model) (l : List Obj)
    (kf vf : List Field) (s : Bool) :
    (updateManyBody model l kf vf s).2 = l.map applyPresave := by
  simp [updateManyBody, prepValues]

theorem updateManyBody_rows (model : Model) (l : List Obj) (kf vf : List Field) :
    (updateManyBody model l kf vf false).1 =
      l.map (fun o => rowOf (vf ++ kf) (applyPresave o) false) := by
  simp [updateManyBody, buildRows, prepValues, rowOf]

theorem updateManyLow_snd (model : Model) (l : List Obj)
    (kf vf : List Field) (s : Bool) :
    (updateManyLow model l kf vf s).2 = l.map applyPresave := by
  unfold updateManyLow
  by_cases h : l.isEmpty
  · simp_all [List.isEmpty_iff]
  · simp [h, updateManyBody_snd]

theorem updateManyLow_rows (model : Model) (l : List Obj) (kf vf : List Field) :
    (updateManyLow model l kf vf false).1.getD [] =
      l.map (fun o => rowOf (vf ++ kf) (applyPresave o) false) := by
  unfold updateManyLow
  by_cases h : l.isEmpty
  · simp_all [List.isEmpty_iff]
  · simp [h, updateManyBody_rows]

theorem length_filter_partition {α : Type} (p : α → Bool) (l : List α) :
    (l.filter p).length + (l.filter (fun a => !p a)).length = l.length := by
  induction l with
  | nil => rfl
  | cons x xs ih =>
      by_cases h : p x <;> simp [List.filter_cons, h] <;> omega

theorem map_pair_filter {α β : Type} (g : α → β) (p : β → Bool) (l : List α) :
    ((l.map (fun o => (o, g o))).filter (fun ok => p ok.2)).map Prod.fst
      = l.filter (fun o => p (g o)) := by
  induction l with
  | nil => rfl
  | cons x xs ih =>
      by_cases h : p (g x) <;> simp [List.filter_cons, h, ih]

theorem filterObjectsAux_length (kf : List Field) :
    ∀ (l : List Obj) (seen : List (List Value)),
      (filterObjectsAux kf l seen).1.length +
        (filterObjectsAux kf l seen).2.length = l.length := by
  intro l
  induction l with
  | nil => intro seen; rfl
  | cons o rest ih =>
      intro seen
      unfold filterObjectsAux
      by_cases h : (prepValues kf o false).2 ∈ seen
      · have := ih seen
        simp [h]
        omega
      · have := ih ((prepValues kf o false).2 :: seen)
        simp [h]
        omega

theorem filterObjectsAux_eq_pure (kf : List Field) :
    ∀ (l : List Obj) (seen : List (List Value)),
      (∀ o ∈ l, o.presave = Option.none) →
      filterObjectsAux kf l seen = pureFilterAux (keyOf kf) l seen := by
  intro l
  induction l with
  | nil => intro seen _; rfl
  | cons o rest ih =>
      intro seen h
      have ho : o.presave = Option.none := h o (List.mem_cons_self o rest)
      have hrest : ∀ x ∈ rest, x.presave = Option.none :=
        fun x hx => h x (List.mem_cons_of_mem o hx)
      have hp : prepValues kf o false = (o, keyOf kf o) := by
        rw [prepValues_of_none ho]; rfl
      unfold filterObjectsAux pureFilterAux
      rw [hp]
      by_cases hm : keyOf kf o ∈ seen
      · simp [hm, ih seen hrest]
      · simp [hm, ih (keyOf kf o :: seen) hrest]

theorem pureFilterAux_length (key : Obj → List Value) :
    ∀ (l : List Obj) (seen : List (List Value)),
      (pureFilterAux key l seen).1.length +
        (pureFilterAux key l seen).2.length = l.length := by
  intro l
  induction l with
  | nil => intro seen; rfl
  | cons o rest ih =>
      intro seen
      unfold pureFilterAux
      by_cases h : key o ∈ seen
      · have := ih seen
        simp [h]
        omega
      · have := ih (key o :: seen)
        simp [h]
        omega

theorem pureFilterAux_kept_subset (key : Obj → List Value) :
    ∀ (l : List Obj) (seen : List (List Value)) (o : Obj),
      o ∈ (pureFilterAux key l seen).1 → o ∈ l := by
  intro l
  induction l with
  | nil => intro seen o h; simp [pureFilterAux] at h
  | cons x rest ih =>
      intro seen o h
      unfold pureFilterAux at h
      by_cases hm : key x ∈ seen
      · simp [hm] at h
        exact List.mem_cons_of_mem x (ih _ o h)
      · simp [hm] at h
        rcases h with h | h
        · simp [h]
        · exact List.mem_cons_of_mem x (ih _ o h)

theorem pureFilterAux_snoc (key : Obj → List Value) (o : Obj) :
    ∀ (xs : List Obj) (seen : List (List Value)),
      (pureFilterAux key (xs ++ [o]) seen).1 =
        (pureFilterAux key xs seen).1 ++
          (if (key o ∈ seen ∨ ∃ x ∈ xs, key x = key o) then []
           else [o]) := by
  intro xs
  induction xs with
  | nil =>
      intro seen
      by_cases h : key o ∈ seen
      · rw [if_pos (Or.inl h)]
        simp [pureFilterAux, h]
      · have hn : ¬ (key o ∈ seen ∨ ∃ x ∈ ([] : List Obj), key x = key o) := by
          simp [h]
        rw [if_neg hn]
        simp [pureFilterAux, h]
  | cons x rest ih =>
      intro seen
      by_cases hx : key x ∈ seen
      · have hl : (pureFilterAux key ((x :: rest) ++ [o]) seen).1
            = (pureFilterAux key (rest ++ [o]) seen).1 := by
          simp [pureFilterAux, hx]
        have hr : (pureFilterAux key (x :: rest) seen).1
            = (pureFilterAux key rest seen).1 := by
          simp [pureFilterAux, hx]
        rw [hl, hr, ih seen]
        congr 1
        apply if_congr _ rfl rfl
        constructor
        · rintro (h | ⟨y, hy, hk⟩)
          · exact Or.inl h
          · exact Or.inr ⟨y, List.mem_cons_of_mem _ hy, hk⟩
        · rintro (h | ⟨y, hy, hk⟩)
          · exact Or.inl h
          · rcases List.mem_cons.mp hy with h' | h'
            · refine Or.inl ?_
              rw [← hk, h']
              exact hx
            · exact Or.inr ⟨y, h', hk⟩
      · have hl : (pureFilterAux key ((x :: rest) ++ [o]) seen).1
            = x :: (pureFilterAux key (rest ++ [o]) (key x :: seen)).1 := by
          simp [pureFilterAux, hx]
        have hr : (pureFilterAux key (x :: rest) seen).1
            = x :: (pureFilterAux key rest (key x :: seen)).1 := by
          simp [pureFilterAux, hx]
        rw [hl, hr, ih (key x :: seen), List.cons_append]
        congr 2
        apply if_congr _ rfl rfl
        constructor
        · rintro (h | ⟨y, hy, hk⟩)
          · rcases List.mem_cons.mp h with h' | h'
            · exact Or.inr ⟨x, List.mem_cons_self x rest, h'.symm⟩
            · exact Or.inl h'
          · exact Or.inr ⟨y, List.mem_cons_of_mem _ hy, hk⟩
        · rintro (h | ⟨y, hy, hk⟩)
          · exact Or.inl (List.mem_cons_of_mem _ h)
          · rcases List.mem_cons.mp hy with h' | h'
            · refine Or.inl ?_
              rw [← hk, ← h']
              exact List.mem_cons_self _ _
            · exact Or.inr ⟨y, h', hk⟩

theorem pureFilter_reverse_keepLast (key : Obj → List Value) (l : List Obj) :
    (pureFilterAux key l.reverse []).1 = (keepLast key l).reverse := by
  induction l with
  | nil => rfl
  | cons o rest ih =>
      rw [List.reverse_cons, pureFilterAux_snoc, ih]
      by_cases h : ∃ x ∈ rest, key x = key o
      · have hb : rest.any (fun p => decide (key p = key o)) = true := by
          rcases h with ⟨x, hx, hk⟩
          exact List.any_eq_true.mpr ⟨x, hx, by simp [hk]⟩
        have hc : key o ∈ ([] : List (List Value)) ∨
            ∃ x ∈ rest.reverse, key x = key o := by
          rcases h with ⟨x, hx, hk⟩
          exact Or.inr ⟨x, List.mem_reverse.mpr hx, hk⟩
        rw [if_pos hc]
        simp [keepLast, hb]
      · have hb : rest.any (fun p => decide (key p = key o)) = false := by
          rw [List.any_eq_false]
          intro x hx
          simp only [decide_eq_true_eq]
          exact fun hk => h ⟨x, hx, hk⟩
        have hc : ¬ (key o ∈ ([] : List (List Value)) ∨
            ∃ x ∈ rest.reverse, key x = key o) := by
          rintro (hc | ⟨x, hx, hk⟩)
          · simp at hc
          · exact h ⟨x, List.mem_reverse.mp hx, hk⟩
        rw [if_neg hc]
        simp [keepLast, hb]

/-- Under hook-free objects, `_filter_objects` keeps exactly the objects the
spec's last-occurrence dedup keeps, in reversed input order. -/
theorem filterObjects_keepLast (kf : List Field) (l : List Obj)
    (h : ∀ o ∈ l, o.presave = Option.none) :
    (filterObjects kf l).1 = (keepLast (keyOf kf) l).reverse := by
  unfold filterObjects
  rw [filterObjectsAux_eq_pure kf l.reverse []
        (fun o ho => h o (List.mem_reverse.mp ho)),
      pureFilter_reverse_keepLast]

theorem probe_map (kf : List Field) (objects : List Obj) :
    objects.map (fun o => prepValues kf o false)
      = (objects.map applyPresave).map (fun o1 => (o1, keyOf kf o1)) := by
  rw [List.map_map]
  rfl

theorem map_pair_filter_mem {α : Type} (g : α → List Value)
    (db : List (List Value)) (l : List α) :
    ((l.map (fun o => (o, g o))).filter
        (fun ok => decide (ok.2 ∈ db))).map Prod.fst
      = l.filter (fun o => decide (g o ∈ db)) :=
  map_pair_filter g (fun v => decide (v ∈ db)) l

theorem map_pair_filter_notMem {α : Type} (g : α → List Value)
    (db : List (List Value)) (l : List α) :
    ((l.map (fun o => (o, g o))).filter
        (fun ok => !decide (ok.2 ∈ db))).map Prod.fst
      = l.filter (fun o => !decide (g o ∈ db)) :=
  map_pair_filter g (fun v => !decide (v ∈ db)) l

theorem map_applyPresave_id {l : List Obj}
    (h : ∀ o ∈ l, o.presave = Option.none) :
    l.map applyPresave = l := by
  induction l with
  | nil => rfl
  | cons x xs ih =>
      rw [List.map_cons,
        applyPresave_of_none (h x (List.mem_cons_self x xs)),
        ih (fun o ho => h o (List.mem_cons_of_mem x ho))]

theorem map_congr_on {α : Type} (l : List Obj) (f g : Obj → α)
    (h : ∀ o ∈ l, f o = g o) : l.map f = l.map g := by
  induction l with
  | nil => rfl
  | cons x xs ih =>
      rw [List.map_cons, List.map_cons, h x (List.mem_cons_self x xs),
        ih (fun o ho => h o (List.mem_cons_of_mem x ho))]

theorem keepLast_subset (key : Obj → List Value) :
    ∀ (l : List Obj) (o : Obj), o ∈ keepLast key l → o ∈ l := by
  intro l
  induction l with
  | nil => intro o h; simp [keepLast] at h
  | cons x rest ih =>
      intro o h
      unfold keepLast at h
      by_cases hc : rest.any (fun p => decide (key p = key x))
      · rw [if_pos hc] at h
        exact List.mem_cons_of_mem x (ih o h)
      · rw [if_neg hc] at h
        rcases List.mem_cons.mp h with h | h
        · simp [h]
        · exact List.mem_cons_of_mem x (ih o h)

theorem iouCore_updatedRows (model : Model) (objects : List Obj)
    (kf vf : List Field) (su : Bool) (db : List (List Value)) :
    (iouCore model objects kf vf su db).updatedRows =
      if su then Option.some []
      else (updateManyLow model
              ((objects.map applyPresave).filter
                (fun o1 => decide (keyOf kf o1 ∈ db))) kf vf false).1 := by
  simp only [iouCore]
  rw [probe_map, map_pair_filter_mem]

theorem iouCore_updateObjsFinal (model : Model) (objects : List Obj)
    (kf vf : List Field) (su : Bool) (db : List (List Value)) :
    (iouCore model objects kf vf su db).updateObjsFinal =
      if su then []
      else ((objects.map applyPresave).filter
              (fun o1 => decide (keyOf kf o1 ∈ db))).map applyPresave := by
  simp only [iouCore]
  rw [probe_map, map_pair_filter_mem, updateManyLow_snd]

theorem iouCore_keptObjsFinal (model : Model) (objects : List Obj)
    (kf vf : List Field) (su : Bool) (db : List (List Value)) :
    (iouCore model objects kf vf su db).keptObjsFinal =
      ((filterObjects kf ((objects.map applyPresave).filter
          (fun o1 => !decide (keyOf kf o1 ∈ db)))).1).map applyPresave := by
  simp only [iouCore]
  rw [probe_map, map_pair_filter_notMem, insertManyBody_snd]

theorem iouCore_droppedObjsFinal (model : Model) (objects : List Obj)
    (kf vf : List Field) (su : Bool) (db : List (List Value)) :
    (iouCore model objects kf vf su db).droppedObjsFinal =
      (filterObjects kf ((objects.map applyPresave).filter
          (fun o1 => !decide (keyOf kf o1 ∈ db)))).2 := by
  simp only [iouCore]
  rw [probe_map, map_pair_filter_notMem]

theorem iouCore_insertedRows (model : Model) (objects : List Obj)
    (kf vf : List Field) (su : Bool) (db : List (List Value)) :
    (iouCore model objects kf vf su db).insertedRows =
      ((filterObjects kf ((objects.map applyPresave).filter
          (fun o1 => !decide (keyOf kf o1 ∈ db)))).1).map
        (fun o => rowOf (modelFields model Option.none) (applyPresave o) true) := by
  simp only [iouCore]
  rw [probe_map, map_pair_filter_notMem, insertManyBody_rows]

theorem updateManyLow_rows_length (model : Model) (l : List Obj)
    (kf vf : List Field) :
    ((updateManyLow model l kf vf false).1.getD []).length = l.length := by
  rw [updateManyLow_rows]
  simp

theorem iou_eq_core (model : Model) (objects : List Obj)
    (keys uf ef : Option (List String)) (su : Bool) (db : List (List Value))
    (kf vf : List Field)
    (hsplit : splitModelFields model keys uf ef = Except.ok (kf, vf))
    (hne : objects ≠ []) :
    insert_or_update_many model objects keys uf ef su db =
      Except.ok ((iouCore model objects kf vf su db).insertedRows,
        (iouCore model objects kf vf su db).updatedRows) := by
  unfold insert_or_update_many
  have h1 : ¬ (objects.isEmpty = true) := by
    simp [List.isEmpty_iff, hne]
  rw [if_neg h1, hsplit]

/-! ### Claim theorems -/

/-- C2 (code evaluated at the failing input): with `keys` an **empty**
(non-`None`) name set, `_model_keys` returns **all** model fields — the
truthiness test `field_names and f.name not in field_names` never fires —
so `_split_model_fields` succeeds instead of raising the documented
`ValueError`, contradicting both the claim and the functions' own
docstrings. -/
theorem c2_empty_keys_returns_all_fields :
    modelKeys testModel (Option.some []) = testModel.fields ∧
    splitModelFields testModel (Option.some []) Option.none Option.none
      = Except.ok (testModel.fields, []) :=
  ⟨rfl, rfl⟩

/-- C6 counterexample: on an empty object list, `insert_many` returns the
Python `None` value (the bare `return` in `_insert_many`), not an empty
list of Row Records. -/
theorem c6_counterexample :
    insert_many testModel [] true = (Option.none, []) ∧
    (Option.none : Option (List Row)) ≠ Option.some [] :=
  ⟨rfl, by simp⟩

/-- C6 amended: an empty object list is never an error and short-circuits:
`insert_or_update_many` returns `([], [])`, `update_many` (with resolvable
keys) performs nothing, and `insert_many` returns Python `None` — not an
empty list. -/
theorem c6_empty_input_short_circuit (model : Model)
    (keys uf ef : Option (List String)) (su skipResult : Bool)
    (db : List (List Value)) (kf vf : List Field)
    (hsplit : splitModelFields model keys uf ef = Except.ok (kf, vf)) :
    insert_many model [] skipResult = (Option.none, []) ∧
    insert_or_update_many model [] keys uf ef su db
      = Except.ok ([], Option.some []) ∧
    update_many model [] keys uf ef = Except.ok [] := by
  refine ⟨rfl, rfl, ?_⟩
  unfold update_many
  rw [hsplit]
  rfl

/-- C6 witness: the short-circuits at the concrete test model. -/
theorem c6_empty_input_short_circuit_witness :
    insert_many testModel [] true = (Option.none, []) ∧
    insert_or_update_many testModel [] Option.none Option.none Option.none
        false [] = Except.ok ([], Option.some []) ∧
    update_many testModel [] Option.none Option.none Option.none
      = Except.ok [] :=
  c6_empty_input_short_circuit testModel Option.none Option.none Option.none
    false true [] [fId] [fA, fB, fC] rfl

/-- C10: when the resolved key field list is empty, `update_many` raises
the `ValueError` even on an empty object list (field splitting precedes
its empty-input check), while `insert_or_update_many` returns `([], [])`
before any key resolution and never raises for the same arguments. -/
theorem c10_validation_order_differs (model : Model)
    (keys uf ef : Option (List String)) (su : Bool)
    (db : List (List Value))
    (hk : modelKeys model keys = []) :
    update_many model [] keys uf ef = Except.error "Empty key fields" ∧
    insert_or_update_many model [] keys uf ef su db
      = Except.ok ([], Option.some []) := by
  constructor
  · simp [update_many, splitModelFields, hk]
  · rfl

/-- C10 witness: `keys` naming no model field, empty object list. -/
theorem c10_validation_order_differs_witness :
    update_many testModel [] (Option.some ["zzz"]) Option.none Option.none
      = Except.error "Empty key fields" ∧
    insert_or_update_many testModel [] (Option.some ["zzz"]) Option.none
        Option.none false [] = Except.ok ([], Option.some []) :=
  c10_validation_order_differs testModel (Option.some ["zzz"]) Option.none
    Option.none false [] rfl

/-- C7: for every successful field split, the resolved key field list and
the resolved value field list are disjoint — every key field's name is put
in the exclusion set the value fields are filtered against. -/
theorem c7_key_value_disjoint (model : Model)
    (keys uf ef : Option (List String)) (kf vf : List Field)
    (h : splitModelFields model keys uf ef = Except.ok (kf, vf)) :
    List.Disjoint kf vf := by
  intro f hf hv
  simp only [splitModelFields] at h
  split at h
  · exact absurd h (by simp)
  · simp only [Except.ok.injEq, Prod.mk.injEq] at h
    obtain ⟨hk, hv2⟩ := h
    subst hk
    subst hv2
    have h1 := List.mem_filter.mp hv
    have h2 : f.name ∈ (modelKeys model keys).map Field.name :=
      List.mem_map_of_mem Field.name hf
    have h3 : f.name ∈
        (modelKeys model keys).map Field.name ++ ef.getD [] :=
      List.mem_append_left _ h2
    simp [h3] at h1

/-- C7 witness: key field `a`, value fields `b`, `c` of the test model. -/
theorem c7_key_value_disjoint_witness :
    List.Disjoint [fA] [fB, fC] :=
  c7_key_value_disjoint testModel (Option.some ["a"]) Option.none Option.none
    [fA] [fB, fC] rfl

/-- C8: the resolved value field list is exactly the model's declared field
list filtered — in declared order — to non-auto fields, restricted to
`update_fields` when that is non-empty, minus `exclude_fields` names and
minus resolved key names. -/
theorem c8_value_fields_resolution (model : Model)
    (keys uf ef : Option (List String)) (kf vf : List Field)
    (h : splitModelFields model keys uf ef = Except.ok (kf, vf)) :
    vf = model.fields.filter (fun f =>
      !f.isAutoField
      && ((uf.getD []).isEmpty || decide (f.name ∈ uf.getD []))
      && !decide (f.name ∈ ef.getD [])
      && !decide (f.name ∈ kf.map Field.name)) := by
  simp only [splitModelFields] at h
  split at h
  · exact absurd h (by simp)
  · simp only [Except.ok.injEq, Prod.mk.injEq] at h
    obtain ⟨hk, hv2⟩ := h
    subst hk
    subst hv2
    unfold modelFields
    rw [List.filter_filter]
    apply List.filter_congr
    intro f hf
    cases hA : f.isAutoField <;>
      cases hM : ((uf.getD []).isEmpty || decide (f.name ∈ uf.getD [])) <;>
      cases hK : decide (f.name ∈ (modelKeys model keys).map Field.name) <;>
      cases hE : decide (f.name ∈ ef.getD []) <;>
      simp_all [List.mem_append]

/-- C8 witness: `update_fields = [b, c]`, `exclude_fields = [c]`, keys on
`a`: the value list is exactly `[b]`. -/
theorem c8_value_fields_resolution_witness :
    [fB] = testModel.fields.filter (fun f =>
      !f.isAutoField
      && (((Option.some ["b", "c"] : Option (List String)).getD []).isEmpty
          || decide (f.name ∈
              (Option.some ["b", "c"] : Option (List String)).getD []))
      && !decide (f.name ∈
            (Option.some ["c"] : Option (List String)).getD [])
      && !decide (f.name ∈ List.map Field.name [fA])) :=
  c8_value_fields_resolution testModel (Option.some ["a"])
    (Option.some ["b", "c"]) (Option.some ["c"]) [fA] [fB] rfl

/-- C9: value preparation passes temporal/UUID fields through `pre_save`
without `get_db_prep_save`, strips the timezone of every `DateTimeField`
value (leaving naive and non-datetime values unchanged), sends every other
field through `get_db_prep_save`, and produces one parameter per field in
the given field order. -/
theorem c9_prep_values (fields : List Field) (o : Obj) (add : Bool) :
    (prepValues fields o add).2
      = fields.map (fun f => prepField f (applyPresave o).attrs add) ∧
    (prepValues fields o add).2.length = fields.length ∧
    (∀ f : Field, ∀ a : Attrs,
      temporalOrUUID f.internalType = true →
      f.internalType ≠ "DateTimeField" →
      prepField f a add = f.preSave a add) ∧
    (∀ f : Field, ∀ a : Attrs,
      f.internalType = "DateTimeField" →
      prepField f a add = stripTZ (f.preSave a add) ∧
        hasTZ (prepField f a add) = false) ∧
    (∀ f : Field, ∀ a : Attrs,
      temporalOrUUID f.internalType = false →
      prepField f a add = f.dbPrepSave (f.preSave a add)) ∧
    (∀ v : Value, hasTZ v = false → stripTZ v = v) := by
  refine ⟨rfl, by simp [prepValues], ?_, ?_, ?_, ?_⟩
  · intro f a ht hne
    simp [prepField, ht, hne]
  · intro f a hdt
    have hstrip : prepField f a add = stripTZ (f.preSave a add) := by
      simp [prepField, temporalOrUUID, hdt]
    refine ⟨hstrip, ?_⟩
    rw [hstrip]
    cases f.preSave a add <;> simp [stripTZ, hasTZ]
  · intro f a ht
    simp [prepField, ht]
  · intro v hv
    cases v with
    | null => rfl
    | int n => rfl
    | str s => rfl
    | dt ts tz =>
        cases tz with
        | none => rfl
        | some z => simp [hasTZ] at hv

/-- C9 witness: a timezone-aware `DateTimeField` value is passed through
`pre_save` and stripped of its timezone, with no `get_db_prep_save`. -/
theorem c9_prep_values_witness :
    prepField fDt (attrsOf [("t", Value.dt 5 (Option.some 120))]) false
      = stripTZ (fDt.preSave
          (attrsOf [("t", Value.dt 5 (Option.some 120))]) false) ∧
    hasTZ (prepField fDt
        (attrsOf [("t", Value.dt 5 (Option.some 120))]) false) = false :=
  (c9_prep_values [fDt] (plainObj []) false).2.2.2.1 fDt
    (attrsOf [("t", Value.dt 5 (Option.some 120))]) rfl

/-- C5 counterexample: in `insert_or_update_many`, a presave hook that
increments its attribute is run three times for an inserted object (probe,
dedup filter, insert prep) — the persisted value is 3, not the 1 a single
invocation would give. -/
theorem c5_counterexample :
    insert_or_update_many preModel [countingObj] Option.none Option.none
        Option.none false []
      = Except.ok ([[("a", Value.int 3)]], Option.none) ∧
    Value.int 3 ≠ Value.int 1 :=
  ⟨rfl, by decide⟩

/-- C5 amended: the hook runs exactly once per object in `insert_many` and
`update_many`, and the persisted parameter tuples are read from the
post-hook attributes; in `insert_or_update_many` the hook runs once during
the key probe, once more per update prep (twice for updated objects), and
twice more for insert-group objects (dedup filter and insert prep — three
times for inserted objects). -/
theorem c5_presave_invocations (model : Model) (objects : List Obj)
    (kf vf : List Field) (su skipResult : Bool) (db : List (List Value)) :
    (insertMany model objects skipResult).2 = objects.map applyPresave ∧
    (insertManyBody model objects false).1
      = objects.map (fun o =>
          rowOf (modelFields model Option.none) (applyPresave o) true) ∧
    (updateManyLow model objects kf vf skipResult).2
      = objects.map applyPresave ∧
    (updateManyLow model objects kf vf false).1.getD []
      = objects.map (fun o => rowOf (vf ++ kf) (applyPresave o) false) ∧
    (iouCore model objects kf vf su db).updateObjsFinal
      = (if su then []
         else ((objects.map applyPresave).filter
             (fun o1 => decide (keyOf kf o1 ∈ db))).map applyPresave) ∧
    (iouCore model objects kf vf su db).keptObjsFinal
      = ((filterObjects kf ((objects.map applyPresave).filter
            (fun o1 => !decide (keyOf kf o1 ∈ db)))).1).map applyPresave ∧
    (∀ o : Obj, (filterObjects kf [o]).1 = [applyPresave o]) := by
  refine ⟨?_, insertManyBody_rows model objects,
    updateManyLow_snd model objects kf vf skipResult,
    updateManyLow_rows model objects kf vf,
    iouCore_updateObjsFinal model objects kf vf su db,
    iouCore_keptObjsFinal model objects kf vf su db, ?_⟩
  · unfold insertMany
    by_cases h : objects.isEmpty
    · rw [if_pos h]
      rw [List.isEmpty_iff.mp h]
      rfl
    · rw [if_neg h]
      exact insertManyBody_snd model objects skipResult
  · intro o
    simp [filterObjects, filterObjectsAux, prepValues]

theorem filterObjects_length (kf : List Field) (l : List Obj) :
    (filterObjects kf l).1.length + (filterObjects kf l).2.length
      = l.length := by
  have h := filterObjectsAux_length kf l.reverse []
  simpa [filterObjects] using h

theorem hookFree_filter {objects : List Obj} (p : Obj → Bool)
    (hfree : ∀ o ∈ objects, o.presave = Option.none) :
    ∀ o ∈ objects.filter p, o.presave = Option.none :=
  fun o ho => hfree o (List.mem_filter.mp ho).1

/-- C1 counterexample: with `skip_update=True` and one pre-existing-key
object among two inputs, `len(inserted) + len(updated) = 1` although no
insert-group duplicate was dropped — the claim's count equation
`1 + 0 = 2 - 0` fails, because the pre-existing-key object was dropped
too. -/
theorem c1_counterexample :
    (insert_or_update_many testModel [objBC 1 1, objBC 2 2]
        (Option.some ["b"]) Option.none Option.none true
        [[Value.int 1]]).map
      (fun p => (p.1.length, (p.2.getD []).length)) = Except.ok (1, 0) ∧
    (iouCore testModel [objBC 1 1, objBC 2 2] [fB] [fA, fC] true
        [[Value.int 1]]).droppedObjsFinal.length = 0 ∧
    1 + 0 ≠ [objBC 1 1, objBC 2 2].length - 0 :=
  ⟨rfl, rfl, by decide⟩

/-- C1 amended: `insert_or_update_many` routes every object whose probe
key tuple is stored to the update group (`skip_update=True` drops those
objects entirely), every other object to the insert group, and
`len(inserted) + len(updated)` equals the input count minus the dropped
insert-group duplicates **and**, when `skip_update=True`, minus the
dropped pre-existing-key objects as well. -/
theorem c1_partition (model : Model) (objects : List Obj)
    (keys uf ef : Option (List String)) (su : Bool) (db : List (List Value))
    (kf vf : List Field)
    (hsplit : splitModelFields model keys uf ef = Except.ok (kf, vf))
    (hne : objects ≠ [])
    (hfree : ∀ o ∈ objects, o.presave = Option.none) :
    insert_or_update_many model objects keys uf ef su db
      = Except.ok ((iouCore model objects kf vf su db).insertedRows,
          (iouCore model objects kf vf su db).updatedRows) ∧
    (iouCore model objects kf vf su db).updateObjsFinal
      = (if su then []
         else objects.filter (fun o => decide (keyOf kf o ∈ db))) ∧
    (su = true →
      (iouCore model objects kf vf su db).updatedRows = Option.some []) ∧
    ((iouCore model objects kf vf su db).updatedRows.getD []).length
      = (if su then 0
         else (objects.filter (fun o => decide (keyOf kf o ∈ db))).length) ∧
    (iouCore model objects kf vf su db).insertedRows.length
        + (iouCore model objects kf vf su db).droppedObjsFinal.length
      = (objects.filter (fun o => !decide (keyOf kf o ∈ db))).length ∧
    (iouCore model objects kf vf su db).insertedRows.length
        + ((iouCore model objects kf vf su db).updatedRows.getD []).length
        + (iouCore model objects kf vf su db).droppedObjsFinal.length
        + (if su then
            (objects.filter (fun o => decide (keyOf kf o ∈ db))).length
          else 0)
      = objects.length := by
  have hmapid : objects.map applyPresave = objects := map_applyPresave_id hfree
  have hfreeP := hookFree_filter (fun o => decide (keyOf kf o ∈ db)) hfree
  have hupd : ((iouCore model objects kf vf su db).updatedRows.getD []).length
      = (if su then 0
         else (objects.filter (fun o => decide (keyOf kf o ∈ db))).length) := by
    rw [iouCore_updatedRows, hmapid]
    by_cases h : su
    · simp [h]
    · simp [h, updateManyLow_rows_length]
  have hins : (iouCore model objects kf vf su db).insertedRows.length
        + (iouCore model objects kf vf su db).droppedObjsFinal.length
      = (objects.filter (fun o => !decide (keyOf kf o ∈ db))).length := by
    rw [iouCore_insertedRows, iouCore_droppedObjsFinal, hmapid,
      List.length_map]
    exact filterObjects_length kf _
  refine ⟨iou_eq_core model objects keys uf ef su db kf vf hsplit hne,
    ?_, ?_, hupd, hins, ?_⟩
  · rw [iouCore_updateObjsFinal, hmapid, map_applyPresave_id hfreeP]
  · intro h
    rw [iouCore_updatedRows, if_pos h]
  · have hpart := length_filter_partition
      (fun o => decide (keyOf kf o ∈ db)) objects
    cases su
    · rw [if_neg (by simp : ¬(false = true))] at hupd
      rw [if_neg (by simp : ¬(false = true))]
      omega
    · rw [if_pos rfl] at hupd
      rw [if_pos rfl]
      omega

/-- C1 witness: the count equation at a two-object batch with one
pre-existing key, `skip_update=False`. -/
theorem c1_partition_witness :
    (iouCore testModel [objBC 1 1, objBC 2 2] [fB] [fA, fC] false
        [[Value.int 1]]).insertedRows.length
      + ((iouCore testModel [objBC 1 1, objBC 2 2] [fB] [fA, fC] false
          [[Value.int 1]]).updatedRows.getD []).length
      + (iouCore testModel [objBC 1 1, objBC 2 2] [fB] [fA, fC] false
          [[Value.int 1]]).droppedObjsFinal.length
      + (if false then
          ([objBC 1 1, objBC 2 2].filter
            (fun o => decide (keyOf [fB] o ∈ [[Value.int 1]]))).length
        else 0)
      = [objBC 1 1, objBC 2 2].length :=
  (c1_partition testModel [objBC 1 1, objBC 2 2] (Option.some ["b"])
    Option.none Option.none false [[Value.int 1]] [fB] [fA, fC] rfl
    (by simp) (by intro o ho; fin_cases ho <;> rfl)).2.2.2.2.2

/-- C3: the insert group is deduplicated by key tuple keeping only the
last occurrence in input order (the kept objects come out reversed — see
C4), while the update path deduplicates nothing: it keeps the probe-hit
objects in input order with their duplicates and submits one parameter row
per object. -/
theorem c3_insert_dedup_update_no_dedup (model : Model) (objects : List Obj)
    (kf vf : List Field) (su : Bool) (db : List (List Value))
    (hfree : ∀ o ∈ objects, o.presave = Option.none) :
    (iouCore model objects kf vf su db).keptObjsFinal
      = (keepLast (keyOf kf)
          (objects.filter (fun o => !decide (keyOf kf o ∈ db)))).reverse ∧
    (su = false →
      (iouCore model objects kf vf su db).updateObjsFinal
        = objects.filter (fun o => decide (keyOf kf o ∈ db)) ∧
      ((iouCore model objects kf vf su db).updatedRows.getD []).length
        = (objects.filter (fun o => decide (keyOf kf o ∈ db))).length) := by
  have hmapid : objects.map applyPresave = objects := map_applyPresave_id hfree
  have hfreeC := hookFree_filter (fun o => !decide (keyOf kf o ∈ db)) hfree
  have hfreeP := hookFree_filter (fun o => decide (keyOf kf o ∈ db)) hfree
  constructor
  · rw [iouCore_keptObjsFinal, hmapid, filterObjects_keepLast kf _ hfreeC]
    apply map_applyPresave_id
    intro o ho
    exact hfreeC o (keepLast_subset _ _ o (List.mem_reverse.mp ho))
  · intro hsu
    constructor
    · rw [iouCore_updateObjsFinal, hmapid, if_neg (by simp [hsu])]
      exact map_applyPresave_id hfreeP
    · rw [iouCore_updatedRows, hmapid, if_neg (by simp [hsu])]
      exact updateManyLow_rows_length model _ kf vf

/-- C3 witness: a batch with a duplicated new key keeps only its last
occurrence. -/
theorem c3_insert_dedup_update_no_dedup_witness :
    (iouCore testModel [objBC 7 1, objBC 7 2, objBC 8 3] [fB] [fA, fC]
        false []).keptObjsFinal
      = (keepLast (keyOf [fB])
          ([objBC 7 1, objBC 7 2, objBC 8 3].filter
            (fun o =>
              !decide (keyOf [fB] o ∈ ([] : List (List Value)))))).reverse :=
  (c3_insert_dedup_update_no_dedup testModel
    [objBC 7 1, objBC 7 2, objBC 8 3] [fB] [fA, fC] false []
    (by intro o ho; fin_cases ho <;> rfl)).1

/-- C4 counterexample: two new objects (`b=2`, then `b=3`) are returned by
`insert_or_update_many` in **reverse** input order — `b=3` first — because
`_filter_objects` iterates `reversed(objects)`. -/
theorem c4_counterexample :
    insert_or_update_many testModel [objBC 1 1, objBC 2 2, objBC 3 3]
        (Option.some ["b"]) Option.none Option.none false [[Value.int 1]]
      = Except.ok
          ([[("a", Value.str "T"), ("b", Value.int 3), ("c", Value.int 3)],
            [("a", Value.str "T"), ("b", Value.int 2), ("c", Value.int 2)]],
           Option.some
             [[("a", Value.str "T"), ("c", Value.int 1),
               ("b", Value.int 1)]]) ∧
    ([[("a", Value.str "T"), ("b", Value.int 3), ("c", Value.int 3)],
      [("a", Value.str "T"), ("b", Value.int 2), ("c", Value.int 2)]]
        : List Row)
      ≠ [[("a", Value.str "T"), ("b", Value.int 2), ("c", Value.int 2)],
         [("a", Value.str "T"), ("b", Value.int 3), ("c", Value.int 3)]] :=
  ⟨rfl, by decide⟩

/-- C4 amended: the updated list preserves the input order of its group,
but the inserted list is in **reverse** input order of the surviving
insert-group objects. -/
theorem c4_row_order (model : Model) (objects : List Obj)
    (keys uf ef : Option (List String)) (su : Bool) (db : List (List Value))
    (kf vf : List Field)
    (hsplit : splitModelFields model keys uf ef = Except.ok (kf, vf))
    (hne : objects ≠ [])
    (hfree : ∀ o ∈ objects, o.presave = Option.none) :
    insert_or_update_many model objects keys uf ef su db
      = Except.ok ((iouCore model objects kf vf su db).insertedRows,
          (iouCore model objects kf vf su db).updatedRows) ∧
    (iouCore model objects kf vf su db).insertedRows
      = ((keepLast (keyOf kf)
            (objects.filter
              (fun o => !decide (keyOf kf o ∈ db)))).reverse).map
          (fun o => rowOf (modelFields model Option.none) o true) ∧
    (su = false →
      (iouCore model objects kf vf su db).updatedRows.getD []
        = (objects.filter (fun o => decide (keyOf kf o ∈ db))).map
            (fun o => rowOf (vf ++ kf) o false)) := by
  have hmapid : objects.map applyPresave = objects := map_applyPresave_id hfree
  have hfreeC := hookFree_filter (fun o => !decide (keyOf kf o ∈ db)) hfree
  have hfreeP := hookFree_filter (fun o => decide (keyOf kf o ∈ db)) hfree
  refine ⟨iou_eq_core model objects keys uf ef su db kf vf hsplit hne,
    ?_, ?_⟩
  · rw [iouCore_insertedRows, hmapid, filterObjects_keepLast kf _ hfreeC]
    apply map_congr_on
    intro o ho
    rw [applyPresave_of_none
      (hfreeC o (keepLast_subset _ _ o (List.mem_reverse.mp ho)))]
  · intro hsu
    rw [iouCore_updatedRows, hmapid, if_neg (by simp [hsu]),
      updateManyLow_rows]
    apply map_congr_on
    intro o ho
    rw [applyPresave_of_none (hfreeP o ho)]

/-- C4 witness: the inserted rows of the three-object batch are the
reversed surviving insert group. -/
theorem c4_row_order_witness :
    (iouCore testModel [objBC 1 1, objBC 2 2, objBC 3 3] [fB] [fA, fC]
        false [[Value.int 1]]).insertedRows
      = ((keepLast (keyOf [fB])
            ([objBC 1 1, objBC 2 2, objBC 3 3].filter
              (fun o => !decide (keyOf [fB] o ∈ [[Value.int 1]])))).reverse).map
          (fun o => rowOf (modelFields testModel Option.none) o true) :=
  (c4_row_order testModel [objBC 1 1, objBC 2 2, objBC 3 3]
    (Option.some ["b"]) Option.none Option.none false [[Value.int 1]]
    [fB] [fA, fC] rfl (by simp)
    (by intro o ho; fin_cases ho <;> rfl)).2.1

end DjangoBulk
